import Mathlib

/-!
Verification of the request-resolution pipeline of the mock-custom-api-server
repository: the condition evaluator and rule matcher (`handler/matcher.go`),
the scenario state store (`state` package), the response synthesizer
(`handler/response.go`) and the template engines (`pkg/template/template.go`),
shallowly embedded in Lean.

Conventions of the embedding:
* Go strings are Lean `String`s; the byte-level operations of the source
  (indexing, slicing, prefix tests) are modelled on the character list
  `String.data`, which agrees with the byte view on the ASCII data the
  matcher handles.
* Go maps used only for lookup (`map[string]string` of extracted values, the
  scenario store) are modelled as functions `String → Option String`; maps
  that are iterated (template values, response headers) are association lists,
  the list order standing for one iteration order of the Go map.
* The Go standard library pieces with no Lean counterpart are made explicit:
  `regexp.MatchString` is an oracle parameter `String → String → Option Bool`
  (`none` = compile/match error), `text/template` is a pair of oracle
  parameters for parsing and executing, `os.ReadFile` is a filesystem
  `String → Option String`, and `rand.Intn` results are `draw` parameters.
* `strconv.ParseFloat` is modelled exactly over the plain decimal fragment
  (sign, digits, fraction, decimal exponent) with values kept as exact
  `num * 10 ^ exp` pairs rather than rounded to binary floating point; the
  comparisons agree with Go's on all inputs used here.
-/

namespace MockAPI

/-! ## String helpers (models of the Go `strings` functions used)

Implemented over `String.data` by structural recursion so that every
definition evaluates inside the kernel. -/

/-- Model of `strings.HasPrefix(s, pre)`. -/
def goStartsWith (s pre : String) : Bool :=
  pre.data.isPrefixOf s.data

/-- Model of `strings.HasSuffix(s, suf)`. -/
def goEndsWith (s suf : String) : Bool :=
  suf.data.isSuffixOf s.data

/-- Helper for `goContains`: does `sub` occur in the list? -/
def goContainsAux (sub : List Char) : List Char → Bool
  | [] => sub.isEmpty
  | c :: rest => sub.isPrefixOf (c :: rest) || goContainsAux sub rest

/-- Model of `strings.Contains(s, sub)`. -/
def goContains (s sub : String) : Bool :=
  goContainsAux sub.data s.data

/-- Model of `strings.ToLower` (ASCII; the tags the matcher lowers are ASCII). -/
def goToLower (s : String) : String :=
  ⟨s.data.map Char.toLower⟩

/-- The white space characters `strings.TrimSpace` strips (ASCII subset of
`unicode.IsSpace`; no input here carries the exotic ones). -/
def isGoSpace (c : Char) : Bool :=
  c = ' ' || c = '\t' || c = '\n' || c = '\r' || c = '\x0B' || c = '\x0C'

/-- Model of `strings.TrimSpace`. -/
def goTrimSpace (s : String) : String :=
  ⟨((s.data.dropWhile isGoSpace).reverse.dropWhile isGoSpace).reverse⟩

/-- Model of `strings.Split(s, ",")` (the separator used by `matchRange`). -/
def splitOnComma : List Char → List (List Char)
  | [] => [[]]
  | c :: rest =>
    if c = ',' then [] :: splitOnComma rest
    else
      match splitOnComma rest with
      | [] => [[c]]
      | h :: t => (c :: h) :: t

/-! ## Model of `strconv.ParseFloat`

`Decimal` keeps the parsed value exactly as `num * 10 ^ exp`. The source
compares the parsed `float64`s; for the plain decimal data handled here the
exact comparison coincides with the rounded one. The model covers the plain
decimal syntax (optional sign, digits, optional fraction, optional decimal
exponent) and rejects everything else; Go additionally accepts "Inf", "NaN",
hexadecimal floats and digit-group underscores, none of which occur here. -/

/-- Exact decimal value `num * 10 ^ exp`. -/
structure Decimal where
  num : Int
  exp : Int
deriving DecidableEq, Repr

/-- Ten to the power `n` as an integer, by `Nat.pow` so that it evaluates in the kernel. -/
def pow10 (n : Nat) : Int :=
  Int.ofNat (Nat.pow 10 n)

/-- Value of a digit list, most significant digit first. -/
def digitsVal (l : List Char) : Nat :=
  l.foldl (fun a c => a * 10 + (c.toNat - 48)) 0

/-- Comparison `a ≤ b` on the exact values `num * 10 ^ exp`. -/
def Decimal.le (a b : Decimal) : Bool :=
  if a.exp ≤ b.exp then decide (a.num ≤ b.num * pow10 (b.exp - a.exp).toNat)
  else decide (a.num * pow10 (a.exp - b.exp).toNat ≤ b.num)

/-- Comparison `a < b` on the exact values `num * 10 ^ exp`. -/
def Decimal.lt (a b : Decimal) : Bool :=
  if a.exp ≤ b.exp then decide (a.num < b.num * pow10 (b.exp - a.exp).toNat)
  else decide (a.num * pow10 (a.exp - b.exp).toNat < b.num)

/-- Model of `strconv.ParseFloat(s, 64)` on the plain decimal fragment:
`none` models a parse error, `some d` the exactly-represented parsed value. -/
def goParseFloat (s : String) : Option Decimal :=
  let sign : Int :=
    match s.data with
    | '-' :: _ => -1
    | _ => 1
  let l1 : List Char :=
    match s.data with
    | '+' :: rest => rest
    | '-' :: rest => rest
    | l => l
  let intPart := l1.takeWhile Char.isDigit
  let l2 := l1.drop intPart.length
  let frac : List Char :=
    match l2 with
    | '.' :: rest => rest.takeWhile Char.isDigit
    | _ => []
  let l3 : List Char :=
    match l2 with
    | '.' :: rest => rest.drop (rest.takeWhile Char.isDigit).length
    | l => l
  if intPart.isEmpty && frac.isEmpty then none
  else
    let mantissa : Int := sign * Int.ofNat (digitsVal (intPart ++ frac))
    match l3 with
    | [] => some ⟨mantissa, -(Int.ofNat frac.length)⟩
    | e :: rest =>
      if e = 'e' || e = 'E' then
        let esign : Int :=
          match rest with
          | '-' :: _ => -1
          | _ => 1
        let edigits : List Char :=
          match rest with
          | '+' :: r => r
          | '-' :: r => r
          | r => r
        if edigits.isEmpty || !(edigits.all Char.isDigit) then none
        else some ⟨mantissa, esign * Int.ofNat (digitsVal edigits) - Int.ofNat frac.length⟩
      else none

/-! ## Condition evaluator and rule matcher (`handler/matcher.go`) -/

/-- The `Condition` of `handler/matcher.go`. -/
structure Condition where
  Selector : String
  MatchType : String
  Value : String
deriving DecidableEq, Repr

/-- The `ConditionGroup` of `handler/matcher.go`. -/
structure ConditionGroup where
  Logic : String
  Conditions : List Condition
deriving DecidableEq, Repr

/-- The `TemplateConfig` of `handler/matcher.go`. -/
structure TemplateConfig where
  Enabled : Bool
  Engine : String
deriving DecidableEq, Repr

/-- The `Rule` of `handler/matcher.go`. `ScenarioStep` and `NextStep` are the two
scenario fields `convertRules` of `handler/handler.go` populates. -/
structure Rule where
  ConditionLogic : String
  Conditions : List Condition
  ConditionGroups : List ConditionGroup
  ScenarioStep : String
  NextStep : String
  ResponseFile : String
  InlineBody : String
  StatusCode : Int
  DelayMs : Int
  Headers : List (String × String)
  ContentType : String
  Template : Option TemplateConfig
deriving Repr

/-- The extracted-values map (`map[string]string`, lookup only). -/
abbrev Values := String → Option String

/-- The `regexp.MatchString(pattern, s)` oracle: `none` models an error,
`some b` a successful call returning `b`. -/
abbrev RegexOracle := String → String → Option Bool

/-- The `matchRange` of `handler/matcher.go`: is the numeric `targetValue` within
the range denoted by `rangeStr` (`"[min, max]"`-style, bracket-controlled
inclusivity)? -/
def matchRange (targetValue rangeStr : String) : Bool :=
  match goParseFloat targetValue with
  | none => false
  | some num =>
    let r := (goTrimSpace rangeStr).data
    if r.length < 5 then false
    else
      let leftInclusive := r.head? = some '['
      let rightInclusive := r.getLast? = some ']'
      let inner := (r.drop 1).dropLast
      match splitOnComma inner with
      | [p1, p2] =>
        match goParseFloat (goTrimSpace ⟨p1⟩), goParseFloat (goTrimSpace ⟨p2⟩) with
        | some minVal, some maxVal =>
          (if leftInclusive then Decimal.le minVal num else Decimal.lt minVal num) &&
          (if rightInclusive then Decimal.le num maxVal else Decimal.lt num maxVal)
        | _, _ => false
      | _ => false

/-- The `matchCondition` of `handler/matcher.go`: one condition against the
already-looked-up target value. -/
def matchCondition (rx : RegexOracle) (targetValue : String) (cond : Condition) : Bool :=
  let mt := goToLower cond.MatchType
  if mt = "exact" then decide (targetValue = cond.Value)
  else if mt = "prefix" then goStartsWith targetValue cond.Value
  else if mt = "suffix" then goEndsWith targetValue cond.Value
  else if mt = "contains" then goContains targetValue cond.Value
  else if mt = "regex" then
    match rx cond.Value targetValue with
    | none => false
    | some matched => matched
  else if mt = "range" then matchRange targetValue cond.Value
  else decide (targetValue = cond.Value)

/-- The lookup `values[cond.Selector]` with the missing-key default `""`. -/
def targetOf (values : Values) (cond : Condition) : String :=
  (values cond.Selector).getD ""

/-- The `matchAllConditions` of `handler/matcher.go` (AND over the list). -/
def matchAllConditions (rx : RegexOracle) (values : Values) (conditions : List Condition) : Bool :=
  conditions.all fun cond => matchCondition rx (targetOf values cond) cond

/-- The `matchAnyCondition` of `handler/matcher.go` (OR over the list). -/
def matchAnyCondition (rx : RegexOracle) (values : Values) (conditions : List Condition) : Bool :=
  conditions.any fun cond => matchCondition rx (targetOf values cond) cond

/-- The `matchConditions` of `handler/matcher.go`: the empty list yields `true`
before the logic tag is consulted. -/
def matchConditions (rx : RegexOracle) (values : Values) (conditions : List Condition)
    (logic : String) : Bool :=
  if conditions.isEmpty then true
  else if logic = "or" then matchAnyCondition rx values conditions
  else matchAllConditions rx values conditions

/-- The `matchGroup` of `handler/matcher.go`. -/
def matchGroup (rx : RegexOracle) (values : Values) (group : ConditionGroup) : Bool :=
  let logic0 := goToLower group.Logic
  let logic := if logic0 = "" then "and" else logic0
  matchConditions rx values group.Conditions logic

/-- The `matchRule` of `handler/matcher.go`: direct conditions under the rule's
logic, AND'd with every condition group when groups exist. -/
def matchRule (rx : RegexOracle) (values : Values) (rule : Rule) : Bool :=
  let logic0 := goToLower rule.ConditionLogic
  let logic := if logic0 = "" then "and" else logic0
  let condResult := matchConditions rx values rule.Conditions logic
  if rule.ConditionGroups.isEmpty then condResult
  else condResult && rule.ConditionGroups.all (matchGroup rx values)

/-- The `MatchRules` of `handler/matcher.go`: first rule satisfying `matchRule`,
scanned in order. -/
def MatchRules (rx : RegexOracle) (values : Values) : List Rule → Option Rule
  | [] => none
  | r :: rs => if matchRule rx values r then some r else MatchRules rx values rs

/-- Modelled from the spec: the step filter of `MatchRulesForStep` —
"`rule.step == \"\" OR rule.step == \"any\" OR rule.step == currentStep`".
The function itself is absent from the staged sources (only its caller in
`handler/handler.go` and its tests are present). -/
def stepAdmits (rule : Rule) (currentStep : String) : Bool :=
  decide (rule.ScenarioStep = "") || decide (rule.ScenarioStep = "any") ||
    decide (rule.ScenarioStep = currentStep)

/-- Modelled from the spec: `MatchRulesForStep(values, rules, currentStep) →
first rule where (rule.step == "" OR rule.step == "any" OR rule.step ==
currentStep) AND matchRule(values, rule)`; a single ordered scan. Its Go
definition is not among the staged sources, only its caller and tests. -/
def MatchRulesForStep (rx : RegexOracle) (values : Values) :
    List Rule → String → Option Rule
  | [], _ => none
  | r :: rs, currentStep =>
    if stepAdmits r currentStep && matchRule rx values r then some r
    else MatchRulesForStep rx values rs currentStep

/-! ## Theorems about the rule matcher -/

/-- The `MatchRules` is the first-match scan, i.e. `List.find?` of `matchRule`. -/
theorem MatchRules_eq_find? (rx : RegexOracle) (values : Values) (rules : List Rule) :
    MatchRules rx values rules = rules.find? (matchRule rx values) := by
  induction rules with
  | nil => rfl
  | cons x rs ih =>
    cases h : matchRule rx values x <;> simp [MatchRules, List.find?, h, ih]

/-- The `stepAdmits` decides the three-way step filter of the spec. -/
theorem stepAdmits_iff (rule : Rule) (currentStep : String) :
    stepAdmits rule currentStep = true ↔
      (rule.ScenarioStep = "" ∨ rule.ScenarioStep = "any" ∨
        rule.ScenarioStep = currentStep) := by
  simp [stepAdmits, Bool.or_eq_true, decide_eq_true_eq, or_assoc]

/-- The `MatchRulesForStep` is the first-match scan of the combined predicate. -/
theorem MatchRulesForStep_eq_find? (rx : RegexOracle) (values : Values)
    (rules : List Rule) (currentStep : String) :
    MatchRulesForStep rx values rules currentStep =
      rules.find? (fun r => stepAdmits r currentStep && matchRule rx values r) := by
  induction rules with
  | nil => rfl
  | cons x rs ih =>
    cases h : stepAdmits x currentStep && matchRule rx values x <;>
      simp [MatchRulesForStep, List.find?, h, ih]

/-- A Bool is false exactly when it is not true (rewriting helper). -/
theorem eq_false_iff_not_eq_true (b : Bool) : (b = false) ↔ ¬ (b = true) := by
  cases b <;> simp

/-- Claim C1, corrected. The claim "OR over an empty direct condition list (and
no groups) makes `matchRule` return false" fails on the code: the empty-list
check of `matchConditions` precedes the logic check, so the empty condition
list is vacuously **true** for `"or"` just as for `"and"`, and `matchRule`
returns true for every such rule. -/
theorem matchConditions_empty_or_vacuous_true :
    ∀ (rx : RegexOracle) (values : Values)
      (logic step next file inline ct : String) (status delay : Int)
      (headers : List (String × String)) (tmpl : Option TemplateConfig),
      matchConditions rx values [] logic = true ∧
      matchRule rx values
        ⟨"or", [], [], step, next, file, inline, status, delay, headers, ct, tmpl⟩ = true := by
  intro rx values logic step next file inline ct status delay headers tmpl
  exact ⟨rfl, rfl⟩

/-- Counterexample for claim C1: at the concrete rule with condition logic `"or"`,
no direct conditions and no condition groups, `matchRule` returns `true`,
refuting the claimed vacuous-false. -/
theorem matchRule_empty_or_counterexample :
    matchRule (fun _ _ => none) (fun _ => none)
      ⟨"or", [], [], "", "", "", "", 0, 0, [], "", none⟩ = true := rfl

/-- Claim C5, confirmed. `MatchRules` returns the first rule in list order for
which `matchRule` holds — `some r` exactly when the list splits as
`pre ++ r :: post` with every rule of `pre` failing `matchRule` and `r`
passing it — and returns `none` exactly when every rule fails. In particular
with two satisfiable rules the earlier-indexed one is returned. -/
theorem matchRules_first_match_spec :
    ∀ (rx : RegexOracle) (values : Values) (rules : List Rule) (r : Rule),
      (MatchRules rx values rules = some r ↔
        matchRule rx values r = true ∧
        ∃ pre post, rules = pre ++ r :: post ∧
          ∀ r' ∈ pre, matchRule rx values r' = false) ∧
      (MatchRules rx values rules = none ↔
        ∀ r' ∈ rules, matchRule rx values r' = false) := by
  intro rx values rules r
  rw [MatchRules_eq_find?, List.find?_eq_some, List.find?_eq_none]
  simp only [Bool.not_eq_true', eq_false_iff_not_eq_true]
  exact ⟨trivial, trivial⟩

/-- Claim C3, confirmed (spec-modelled). `MatchRulesForStep` returns the first
rule in list order whose step filter admits the current step (empty, `"any"`,
or equal to it) and for which `matchRule` holds; `none` when no rule
satisfies both. -/
theorem matchRulesForStep_first_match :
    ∀ (rx : RegexOracle) (values : Values) (rules : List Rule)
      (currentStep : String) (r : Rule),
      (MatchRulesForStep rx values rules currentStep = some r ↔
        (r.ScenarioStep = "" ∨ r.ScenarioStep = "any" ∨
          r.ScenarioStep = currentStep) ∧
        matchRule rx values r = true ∧
        ∃ pre post, rules = pre ++ r :: post ∧
          ∀ r' ∈ pre,
            ¬((r'.ScenarioStep = "" ∨ r'.ScenarioStep = "any" ∨
                r'.ScenarioStep = currentStep) ∧
              matchRule rx values r' = true)) ∧
      (MatchRulesForStep rx values rules currentStep = none ↔
        ∀ r' ∈ rules,
          ¬((r'.ScenarioStep = "" ∨ r'.ScenarioStep = "any" ∨
              r'.ScenarioStep = currentStep) ∧
            matchRule rx values r' = true)) := by
  intro rx values rules currentStep r
  rw [MatchRulesForStep_eq_find?, List.find?_eq_some, List.find?_eq_none]
  simp only [Bool.not_eq_true', eq_false_iff_not_eq_true, Bool.and_eq_true,
    stepAdmits_iff, and_assoc]
  exact ⟨trivial, trivial⟩

/-! ## Scenario store (`state` package, `part_015` of the staged sources)

The store's field `steps : map[string]string` is modelled extensionally as
the partial function from keys to step names; `SetStep` is pointwise update,
`ResetScenario` pointwise deletion of the keys matching its raw prefix test. -/

/-- The `steps` map of `state.ScenarioStore`. -/
abbrev StepMap := String → Option String

/-- The `state.New()`: the empty map. -/
def newStore : StepMap := fun _ => none

/-- The `defaultStep` of the `state` package. -/
def defaultStep : String := "idle"

/-- The `buildKey` of the `state` package. -/
def buildKey (scenario partitionValue : String) : String :=
  scenario ++ ":" ++ partitionValue

/-- The raw string-prefix test `len(k) >= len(pre) && k[:len(pre)] == pre`
that `ResetScenario` applies to every key. -/
def keyHasPfx (k pre : String) : Bool :=
  pre.data.isPrefixOf k.data

/-- The `GetStep`: stored step, or `"idle"` when the key is absent. -/
def GetStep (store : StepMap) (scenario partitionValue : String) : String :=
  (store (buildKey scenario partitionValue)).getD defaultStep

/-- The `SetStep`: unconditional overwrite of one key. -/
def SetStep (store : StepMap) (scenario partitionValue step : String) : StepMap :=
  fun k => if k = buildKey scenario partitionValue then some step else store k

/-- The `ResetScenario`: delete every key carrying the raw string prefix
`scenario ++ ":"`. -/
def ResetScenario (store : StepMap) (scenario : String) : StepMap :=
  fun k => if keyHasPfx k (scenario ++ ":") then none else store k

/-- Strings with the same character data are equal. -/
theorem stringDataInj {s t : String} (h : s.data = t.data) : s = t := by
  cases s ; cases t ; exact congrArg String.mk h

/-- The character data of `s ++ ":"`. -/
theorem data_append_colon (s : String) : (s ++ ":").data = s.data ++ [':'] := by
  rw [String.data_append]

/-- The character data of `buildKey`. -/
theorem data_buildKey (s p : String) :
    (buildKey s p).data = (s.data ++ [':']) ++ p.data := by
  rw [buildKey, String.data_append, data_append_colon]

/-- Claim C4, corrected. On a fresh store `GetStep` returns `"idle"`; after
`SetStep` it returns the set step; after `ResetScenario` of the same scenario
it returns `"idle"` again. The non-interference part is amended: resetting
scenario `s` leaves every entry of a distinct scenario `t` (one name a prefix
of the other) unchanged **provided** the longer name does not extend the
shorter by a segment starting with `':'` — i.e. `s ++ ":"` is not a prefix of
`t` and `t ++ ":"` is not a prefix of `s`. For names like `"s"` and `"sX"`
this always holds; for colon-extended names like `"a"` and `"a:b"` the raw
prefix test of `ResetScenario` deletes the other scenario's entries (see the
counterexample). -/
theorem scenarioStore_get_set_reset_spec :
    ∀ (σ : StepMap) (s t p x : String),
      GetStep newStore s p = "idle" ∧
      GetStep (SetStep σ s p x) s p = x ∧
      GetStep (ResetScenario σ s) s p = "idle" ∧
      ((s.data <+: t.data ∨ t.data <+: s.data) → s ≠ t →
        ¬ (s ++ ":").data <+: t.data → ¬ (t ++ ":").data <+: s.data →
        GetStep (ResetScenario σ s) t p = GetStep σ t p) := by
  intro σ s t p x
  refine ⟨rfl, by simp [GetStep, SetStep], ?_, ?_⟩
  · have hkey : keyHasPfx (buildKey s p) (s ++ ":") = true := by
      simp only [keyHasPfx, data_append_colon, data_buildKey]
      rw [List.isPrefixOf_iff_prefix]
      exact List.prefix_append _ _
    simp [GetStep, ResetScenario, hkey, defaultStep]
  · intro hpre hne h3 h4
    have hkey : keyHasPfx (buildKey t p) (s ++ ":") = false := by
      rw [eq_false_iff_not_eq_true]
      simp only [keyHasPfx, data_append_colon, data_buildKey,
        List.isPrefixOf_iff_prefix]
      rw [data_append_colon] at h3 h4
      rcases hpre with ⟨r, hr⟩ | ⟨r, hr⟩
      · cases r with
        | nil => exact absurd (stringDataInj (by simpa using hr)) hne
        | cons c r' =>
          rw [← hr] at h3 ⊢
          have hc : ¬ ([':'] <+: c :: r') := fun hp =>
            h3 ((List.prefix_append_right_inj s.data).mpr hp)
          intro hcontra
          rw [List.append_assoc, List.append_assoc] at hcontra
          have := (List.prefix_append_right_inj s.data).mp hcontra
          rw [List.cons_append] at this
          rcases (List.cons_prefix_cons.mp this) with ⟨hch, -⟩
          exact hc (List.cons_prefix_cons.mpr ⟨hch, List.nil_prefix⟩)
      · cases r with
        | nil => exact absurd (stringDataInj (by simpa using hr.symm)) hne
        | cons c r' =>
          rw [← hr] at h4 ⊢
          have hc : ¬ ([':'] <+: c :: r') := fun hp =>
            h4 ((List.prefix_append_right_inj t.data).mpr hp)
          intro hcontra
          rw [List.append_assoc, List.append_assoc] at hcontra
          have := (List.prefix_append_right_inj t.data).mp hcontra
          rw [List.cons_append, List.singleton_append] at this
          rcases (List.cons_prefix_cons.mp this) with ⟨hch, -⟩
          exact hc (List.cons_prefix_cons.mpr ⟨hch.symm, List.nil_prefix⟩)
    simp [GetStep, ResetScenario, hkey]

/-- Counterexample for claim C4: `"a"` is a proper string prefix of the distinct
scenario name `"a:b"`, yet `ResetScenario "a"` deletes the entry of scenario
`"a:b"` (its step reverts from `"x"` to `"idle"`), refuting the claim that
every prefix-related pair of distinct scenarios is unaffected. -/
theorem resetScenario_prefix_cex :
    ("a" : String) ≠ "a:b" ∧
    ("a" : String).data <+: ("a:b" : String).data ∧
    GetStep (SetStep newStore "a:b" "p" "x") "a:b" "p" = "x" ∧
    GetStep (ResetScenario (SetStep newStore "a:b" "p" "x") "a") "a:b" "p" = "idle" := by
  refine ⟨by decide, ⟨[':', 'b'], by decide⟩, rfl, rfl⟩

/-- Claim C9, confirmed. Scenario-store keys are the raw concatenation
`scenario ++ ":" ++ partition`, so colliding pairs alias one entry: a
`SetStep` under one spelling is read back by the other, and resetting a
scenario deletes the entries of every colon-extended scenario name (e.g.
resetting `"a"` removes entries of scenario `"a:b"`, and concretely
`SetStep σ "a" "b:c"` is visible as `GetStep σ "a:b" "c"`). -/
theorem scenarioStore_key_aliasing :
    ∀ (σ : StepMap) (s1 p1 s2 p2 r p x : String),
      (buildKey s1 p1 = buildKey s2 p2 →
        GetStep (SetStep σ s1 p1 x) s2 p2 = x) ∧
      GetStep (ResetScenario σ s1) (s1 ++ ":" ++ r) p = "idle" ∧
      GetStep (SetStep σ "a" "b:c" x) "a:b" "c" = x := by
  intro σ s1 p1 s2 p2 r p x
  refine ⟨?_, ?_, ?_⟩
  · intro h
    simp [GetStep, SetStep, h]
  · have hkey : keyHasPfx (buildKey (s1 ++ ":" ++ r) p) (s1 ++ ":") = true := by
      simp only [keyHasPfx, data_append_colon, data_buildKey,
        String.data_append, List.isPrefixOf_iff_prefix]
      rw [List.append_assoc, List.append_assoc]
      exact List.prefix_append _ _
    simp [GetStep, ResetScenario, hkey, defaultStep]
  · rfl

/-! ## Template engines (`pkg/template/template.go`) -/

/-- The three built-in variables of `getBuiltinVariables` (current RFC3339
timestamp, fresh UUID, the UUID's first segment); they are nondeterministic
at run time, so they are parameters of the embedding. -/
structure Builtins where
  timestamp : String
  uuid : String
  request_id : String

/-- Fuel-bounded scan for `goReplaceAll`; the fuel (initially the length of
the text) bounds the number of positions examined, one per step. -/
def replaceListAux (old new : List Char) : Nat → List Char → List Char
  | 0, l => l
  | _ + 1, [] => []
  | fuel + 1, c :: rest =>
    if old.isPrefixOf (c :: rest) then
      new ++ replaceListAux old new fuel ((c :: rest).drop old.length)
    else c :: replaceListAux old new fuel rest

/-- Model of `strings.ReplaceAll(s, old, new)` for non-empty `old` (every
pattern replaced here is a non-empty placeholder): left-to-right,
non-overlapping replacement of every occurrence. -/
def goReplaceAll (s old new : String) : String :=
  ⟨replaceListAux old.data new.data s.data.length s.data⟩

/-- The `replaceSimple` of `pkg/template/template.go`: literal substring
replacement of the three built-in placeholders and then of each
`\x7b\x7b.name\x7d\x7d` selector placeholder, the list order of `values`
standing for one iteration order of the Go map. -/
def replaceSimple (content : String) (values : List (String × String))
    (b : Builtins) : String :=
  let r0 := goReplaceAll content "\x7b\x7b.timestamp\x7d\x7d" b.timestamp
  let r1 := goReplaceAll r0 "\x7b\x7b.uuid\x7d\x7d" b.uuid
  let r2 := goReplaceAll r1 "\x7b\x7b.request_id\x7d\x7d" b.request_id
  values.foldl
    (fun acc nv => goReplaceAll acc ("\x7b\x7b." ++ nv.1 ++ "\x7d\x7d") nv.2) r2

/-- The data `replaceWithGoTemplate` hands the go engine: built-ins then
selector values (later entries standing for the later Go map assignments). -/
def templateData (b : Builtins) (values : List (String × String)) :
    List (String × String) :=
  [("timestamp", b.timestamp), ("uuid", b.uuid), ("request_id", b.request_id)]
    ++ values

/-- The `replaceWithGoTemplate` of `pkg/template/template.go`, with Go's
`text/template` as a pair of oracles: `goParse` (`none` = parse error) and
`goExec` (`none` = execution error). On either error the function falls back
to `replaceSimple` on the same input; otherwise it returns the engine's
output. -/
def replaceWithGoTemplate {T : Type} (goParse : String → Option T)
    (goExec : T → List (String × String) → Option String)
    (content : String) (values : List (String × String)) (b : Builtins) : String :=
  match goParse content with
  | none => replaceSimple content values b
  | some tmpl =>
    match goExec tmpl (templateData b values) with
    | none => replaceSimple content values b
    | some out => out

/-- The `ReplaceVariablesWithEngine` of `pkg/template/template.go`: dispatch on
the lowered engine name, `"go"` to the go engine, anything else to the
simple engine. -/
def ReplaceVariablesWithEngine {T : Type} (goParse : String → Option T)
    (goExec : T → List (String × String) → Option String)
    (content : String) (values : List (String × String)) (b : Builtins)
    (engine : String) : String :=
  if goToLower engine = "go" then
    replaceWithGoTemplate goParse goExec content values b
  else replaceSimple content values b

/-- Claim C7, confirmed. When the go template engine fails to parse the
content, or parses it but fails to execute it, `replaceWithGoTemplate`
returns exactly the simple engine's result on the same input — not an error
and not the unmodified content; concretely, the simple engine substitutes
`\x7b\x7b.name\x7d\x7d`-style placeholders literally. -/
theorem goTemplate_error_falls_back_to_simple :
    ∀ (T : Type) (goParse : String → Option T)
      (goExec : T → List (String × String) → Option String)
      (content : String) (values : List (String × String)) (b : Builtins),
      (goParse content = none →
        replaceWithGoTemplate goParse goExec content values b =
          replaceSimple content values b) ∧
      (∀ t, goParse content = some t →
        goExec t (templateData b values) = none →
        replaceWithGoTemplate goParse goExec content values b =
          replaceSimple content values b) ∧
      replaceSimple "x \x7b\x7b.name\x7d\x7d y" [("name", "bob")] b = "x bob y" := by
  intro T goParse goExec content values b
  refine ⟨?_, ?_, rfl⟩
  · intro h
    simp [replaceWithGoTemplate, h]
  · intro t h1 h2
    simp [replaceWithGoTemplate, h1, h2]

/-! ## Weighted random selection (`handler/response.go`) -/

/-- The `RandomResponseConfig` of `handler/response.go`. -/
structure RandomResponseConfig where
  File : String
  Weight : Int
  StatusCode : Int
  DelayMs : Int
deriving DecidableEq, Repr

/-- Go's zero value `RandomResponseConfig\x7b\x7d`. -/
def zeroRandomResponse : RandomResponseConfig := ⟨"", 0, 0, 0⟩

/-- The `totalWeight` accumulation loop of `selectRandomResponse`. -/
def totalWeightOf (responses : List RandomResponseConfig) : Int :=
  (responses.map (·.Weight)).sum

/-- The cumulative-sum scan of `selectRandomResponse`: starting from the
running total `cumulative`, return the first entry whose added weight takes
the total above `draw`. -/
def scanSelect (draw : Int) :
    List RandomResponseConfig → Int → Option RandomResponseConfig
  | [], _ => none
  | resp :: rest, cumulative =>
    if draw < cumulative + resp.Weight then some resp
    else scanSelect draw rest (cumulative + resp.Weight)

/-- The `selectRandomResponse` of `handler/response.go`; `draw` stands for the
value produced by the random source (`rand.Intn(len(responses))` in the
zero-total branch, `rand.Intn(totalWeight)` otherwise). -/
def selectRandomResponse (responses : List RandomResponseConfig) (draw : Int) :
    RandomResponseConfig :=
  if responses.isEmpty then zeroRandomResponse
  else
    let totalWeight := totalWeightOf responses
    if totalWeight = 0 then responses.getD draw.toNat zeroRandomResponse
    else
      match scanSelect draw responses 0 with
      | some resp => resp
      | none => responses.headD zeroRandomResponse

/-- Sum of the weights of the first `i` entries. -/
def weightBefore (responses : List RandomResponseConfig) (i : Nat) : Int :=
  totalWeightOf (responses.take i)

theorem totalWeightOf_nil : totalWeightOf [] = 0 := rfl

theorem totalWeightOf_cons (z : RandomResponseConfig)
    (rest : List RandomResponseConfig) :
    totalWeightOf (z :: rest) = z.Weight + totalWeightOf rest := by
  simp [totalWeightOf]

theorem weightBefore_zero (rs : List RandomResponseConfig) :
    weightBefore rs 0 = 0 := by
  simp [weightBefore, totalWeightOf]

theorem weightBefore_succ_cons (z : RandomResponseConfig)
    (rest : List RandomResponseConfig) (j : Nat) :
    weightBefore (z :: rest) (j + 1) = z.Weight + weightBefore rest j := by
  simp [weightBefore, List.take_succ_cons, totalWeightOf]

/-- The cumulative-sum scan lands on the unique entry whose cumulative weight
interval contains the draw, for non-negative weights and an in-range draw. -/
theorem scanSelect_characterization :
    ∀ (rs : List RandomResponseConfig) (draw cum : Int),
      (∀ z ∈ rs, 0 ≤ z.Weight) → cum ≤ draw →
      draw < cum + totalWeightOf rs →
      ∃ (j : Nat) (hj : j < rs.length),
        scanSelect draw rs cum = some (rs.get ⟨j, hj⟩) ∧
        cum + weightBefore rs j ≤ draw ∧
        draw < cum + weightBefore rs j + (rs.get ⟨j, hj⟩).Weight := by
  intro rs
  induction rs with
  | nil =>
    intro draw cum _ h1 h2
    rw [totalWeightOf_nil] at h2
    omega
  | cons z rest ih =>
    intro draw cum hnn h1 h2
    by_cases hz : draw < cum + z.Weight
    · refine ⟨0, by simp, ?_, ?_, ?_⟩
      · simp [scanSelect, hz]
      · rw [weightBefore_zero] ; omega
      · rw [weightBefore_zero] ; simpa using hz
    · have hz' : cum + z.Weight ≤ draw := by omega
      have hnn' : ∀ w ∈ rest, 0 ≤ w.Weight := fun w hw =>
        hnn w (List.mem_cons_of_mem _ hw)
      have h2' : draw < (cum + z.Weight) + totalWeightOf rest := by
        rw [totalWeightOf_cons] at h2 ; omega
      obtain ⟨j, hj, hsel, hlow, hhigh⟩ := ih draw (cum + z.Weight) hnn' hz' h2'
      refine ⟨j + 1, by simpa using Nat.succ_lt_succ hj, ?_, ?_, ?_⟩
      · simpa [scanSelect, hz] using hsel
      · rw [weightBefore_succ_cons] ; omega
      · rw [weightBefore_succ_cons]
        simp only [List.get_cons_succ]
        have := hhigh
        simp only [List.get_eq_getElem] at this ⊢
        omega

/-- Claim C6, confirmed. For a non-empty weighted list: with total weight zero
the draw indexes the entries directly (uniform choice for a uniform draw);
with non-negative weights and a draw in `[0, totalWeight)` the
cumulative-sum scan selects the entry whose weight interval contains the
draw; and for `[A (weight 100), B (weight 0)]` every in-range draw selects
`A`, never `B`. -/
theorem selectRandomResponse_spec :
    ∀ (rs : List RandomResponseConfig) (i : Fin rs.length) (d : Int)
      (a y : RandomResponseConfig),
      (totalWeightOf rs = 0 →
        selectRandomResponse rs ((i : Nat) : Int) = rs.get i) ∧
      ((∀ z ∈ rs, 0 ≤ z.Weight) → 0 ≤ d → d < totalWeightOf rs →
        ∃ j : Fin rs.length, selectRandomResponse rs d = rs.get j ∧
          weightBefore rs j ≤ d ∧ d < weightBefore rs j + (rs.get j).Weight) ∧
      (a.Weight = 100 → y.Weight = 0 → 0 ≤ d → d < 100 →
        selectRandomResponse [a, y] d = a) := by
  intro rs i d a y
  have hne : rs.isEmpty = false := by
    cases rs with
    | nil => exact absurd i.isLt (by simp)
    | cons z rest => rfl
  refine ⟨?_, ?_, ?_⟩
  · intro htot
    simp only [selectRandomResponse, hne, Bool.false_eq_true, if_false, htot,
      if_true, if_pos rfl]
    rw [Int.toNat_natCast, List.getD_eq_getElem rs zeroRandomResponse i.isLt]
    simp [List.get_eq_getElem]
  · intro hnn h0 htop
    have htot : totalWeightOf rs ≠ 0 := by omega
    obtain ⟨j, hj, hsel, hlow, hhigh⟩ :=
      scanSelect_characterization rs d 0 hnn h0 (by omega)
    refine ⟨⟨j, hj⟩, ?_, by simpa using hlow, by simpa using hhigh⟩
    simp only [selectRandomResponse, hne, Bool.false_eq_true, if_false,
      if_neg htot, hsel]
  · intro ha hy h0 h100
    have h1 : totalWeightOf [a, y] = 100 := by
      rw [totalWeightOf_cons, totalWeightOf_cons, totalWeightOf_nil, ha, hy]
      omega
    have hd : d < (0 : Int) + a.Weight := by omega
    simp only [selectRandomResponse, List.isEmpty_cons, Bool.false_eq_true,
      if_false, h1, scanSelect, if_pos hd]
    norm_num

/-! ## Response building (`Build` of `handler/response.go`) -/

/-- The `ResponseResult` of `handler/response.go`; `Headers` is the association
list standing for the built header map. -/
structure ResponseResult where
  Body : String
  StatusCode : Int
  Headers : List (String × String)
  DelayMs : Int
  ContentType : String
deriving Repr

/-- The `ResponseBuildConfig` of `handler/response.go`. -/
structure ResponseBuildConfig where
  ResponseFile : String
  StatusCode : Int
  DelayMs : Int
  Headers : List (String × String)
  ContentType : String
  TemplateEnabled : Bool
  TemplateEngine : String
  RandomResponses : List RandomResponseConfig
deriving Repr

/-- Go map assignment `headers[k] = v` on the association-list model:
replace the value under an existing key, otherwise append the pair. -/
def setHeader (headers : List (String × String)) (k v : String) :
    List (String × String) :=
  if headers.any (fun p => decide (p.1 = k)) then
    headers.map fun p => if p.1 = k then (k, v) else p
  else headers ++ [(k, v)]

/-- Header map lookup. -/
def lookupHeader (headers : List (String × String)) (k : String) :
    Option String :=
  (headers.find? fun p => decide (p.1 = k)).map (·.2)

/-- The random-response override at the top of `Build`: when the config
carries a weighted list, the selected entry's file, status and delay replace
the config's own. -/
def applyRandom (cfg : ResponseBuildConfig) (draw : Int) : ResponseBuildConfig :=
  if cfg.RandomResponses.isEmpty then cfg
  else
    let rr := selectRandomResponse cfg.RandomResponses draw
    { cfg with
        ResponseFile := rr.File, StatusCode := rr.StatusCode,
        DelayMs := rr.DelayMs }

/-- The `Build` of `handler/response.go`. Extra parameters of the embedding: the
go-template oracles, the filesystem `fs` modelling `os.ReadFile` (`none` = a
read error), the random draw, and the built-in template variables. A failed
read of a non-empty response file returns `.error` carrying that path, as
`Build` returns the `os.ReadFile` error to its caller. -/
def Build {T : Type} (goParse : String → Option T)
    (goExec : T → List (String × String) → Option String)
    (fs : String → Option String) (draw : Int) (b : Builtins)
    (cfg0 : ResponseBuildConfig) (values : List (String × String)) :
    Except String ResponseResult :=
  let cfg := applyRandom cfg0 draw
  let bodyE : Except String String :=
    if cfg.ResponseFile = "" then .ok ""
    else
      match fs cfg.ResponseFile with
      | some content => .ok content
      | none => .error cfg.ResponseFile
  match bodyE with
  | .error e => .error e
  | .ok body0 =>
    let engine := if cfg.TemplateEngine = "" then "simple" else cfg.TemplateEngine
    let body :=
      if cfg.TemplateEnabled && decide (0 < body0.length) then
        ReplaceVariablesWithEngine goParse goExec body0 values b engine
      else body0
    let status := if cfg.StatusCode = 0 then 200 else cfg.StatusCode
    let contentType :=
      if cfg.ContentType = "" then "application/json" else cfg.ContentType
    let headers :=
      cfg.Headers.foldl
        (fun acc kv =>
          let v :=
            if cfg.TemplateEnabled then
              ReplaceVariablesWithEngine goParse goExec kv.2 values b engine
            else kv.2
          setHeader acc kv.1 v)
        [("Content-Type", contentType)]
    .ok { Body := body, StatusCode := status, Headers := headers,
          DelayMs := cfg.DelayMs, ContentType := contentType }

/-- The `applyRandom` never changes the content type. -/
theorem applyRandom_contentType (cfg : ResponseBuildConfig) (draw : Int) :
    (applyRandom cfg draw).ContentType = cfg.ContentType := by
  unfold applyRandom ; split <;> rfl

/-- The `setHeader` keeps every present key present. -/
theorem lookupHeader_setHeader_isSome (hs : List (String × String))
    (k v k0 : String) (h : (lookupHeader hs k0).isSome = true) :
    (lookupHeader (setHeader hs k v) k0).isSome = true := by
  simp only [lookupHeader, Option.isSome_map', List.find?_isSome,
    decide_eq_true_eq] at h ⊢
  obtain ⟨p, hp, hpk⟩ := h
  unfold setHeader
  split
  · by_cases hpk' : p.1 = k
    · have hk0 : k = k0 := by rw [← hpk'] ; exact hpk
      refine ⟨(k, v), ?_, hk0⟩
      have hmem := List.mem_map_of_mem (fun q => if q.1 = k then (k, v) else q) hp
      simpa only [if_pos hpk'] using hmem
    · refine ⟨p, ?_, hpk⟩
      have hmem := List.mem_map_of_mem (fun q => if q.1 = k then (k, v) else q) hp
      simpa only [if_neg hpk'] using hmem
  · exact ⟨p, List.mem_append_left _ hp, hpk⟩

/-- Folding Go map assignments over a header list keeps present keys present. -/
theorem lookupHeader_foldl_isSome (g : String × String → String)
    (l : List (String × String)) :
    ∀ (acc : List (String × String)) (k0 : String),
      (lookupHeader acc k0).isSome = true →
      (lookupHeader (l.foldl (fun a kv => setHeader a kv.1 (g kv)) acc) k0).isSome
        = true := by
  induction l with
  | nil => intro acc k0 h ; exact h
  | cons kv rest ih =>
    intro acc k0 h
    exact ih _ _ (lookupHeader_setHeader_isSome _ _ _ _ h)

/-- Claim C10, confirmed. `Build` returns an error exactly when the response
file it resolves to after the weighted-random override is a non-empty path
whose read fails; when the resolved file is empty, `Build` succeeds with an
empty body, the status defaulted to 200 when unset, a `Content-Type` header
entry present, and the content type defaulted to `application/json`. -/
theorem build_error_iff_file_read_fails :
    ∀ (T : Type) (goParse : String → Option T)
      (goExec : T → List (String × String) → Option String)
      (fs : String → Option String) (draw : Int) (b : Builtins)
      (cfg : ResponseBuildConfig) (values : List (String × String)),
      ((∃ e, Build goParse goExec fs draw b cfg values = .error e) ↔
        ((applyRandom cfg draw).ResponseFile ≠ "" ∧
          fs ((applyRandom cfg draw).ResponseFile) = none)) ∧
      ((applyRandom cfg draw).ResponseFile = "" →
        ∃ res, Build goParse goExec fs draw b cfg values = .ok res ∧
          res.Body = "" ∧
          res.StatusCode =
            (if (applyRandom cfg draw).StatusCode = 0 then 200
             else (applyRandom cfg draw).StatusCode) ∧
          (lookupHeader res.Headers "Content-Type").isSome = true ∧
          res.ContentType =
            (if cfg.ContentType = "" then "application/json"
             else cfg.ContentType)) := by
  intro T goParse goExec fs draw b cfg values
  constructor
  · constructor
    · rintro ⟨e, he⟩
      by_cases hf : (applyRandom cfg draw).ResponseFile = ""
      · simp [Build, hf] at he
      · cases hread : fs ((applyRandom cfg draw).ResponseFile) with
        | none => exact ⟨hf, rfl⟩
        | some content => simp [Build, hf, hread] at he
    · rintro ⟨hf, hread⟩
      exact ⟨(applyRandom cfg draw).ResponseFile, by simp [Build, hf, hread]⟩
  · intro hf
    cases hB : Build goParse goExec fs draw b cfg values with
    | error e => exact absurd hB (by simp [Build, hf])
    | ok res =>
      have hR := hB
      simp only [Build, hf, if_pos, if_true] at hR
      rw [Except.ok.injEq] at hR
      refine ⟨res, rfl, ?_, ?_, ?_, ?_⟩
      · rw [← hR] ; simp
      · rw [← hR]
      · rw [← hR]
        refine lookupHeader_foldl_isSome _ _ _ _ ?_
        rfl
      · rw [← hR] ; simp only [applyRandom_contentType]

/-! ## Inline body resolution (spec-modelled) -/

/-- Modelled from the spec: the body-resolution step of the Response
Synthesizer — "inline literal body takes precedence if present; otherwise
read the resolved file; a read failure is a hard error (propagated, not
swallowed)". The staged sources declare the `InlineBody` fields (`Rule` of
`handler/matcher.go`, `ResponseConfig` of `config/config.go`) but the code
consuming them is not among the staged files, so the step is modelled from
the spec's words; "present" is Go's non-zero string value. -/
def resolveBodyBytes (fs : String → Option String)
    (inlineBody responseFile : String) : Except String String :=
  if inlineBody ≠ "" then .ok inlineBody
  else if responseFile = "" then .ok ""
  else
    match fs responseFile with
    | some content => .ok content
    | none => .error responseFile

/-- Claim C2, confirmed (spec-modelled). A present (non-empty) inline body is
returned as the body without consulting the filesystem; with no inline body,
a read failure of a non-empty response file is propagated as an error to the
caller, and a successful read returns the file's bytes. -/
theorem inline_body_precedence :
    ∀ (fs : String → Option String) (inlineBody responseFile : String),
      (inlineBody ≠ "" →
        resolveBodyBytes fs inlineBody responseFile = .ok inlineBody) ∧
      (inlineBody = "" → responseFile ≠ "" → fs responseFile = none →
        resolveBodyBytes fs inlineBody responseFile = .error responseFile) ∧
      (inlineBody = "" → responseFile ≠ "" →
        ∀ content, fs responseFile = some content →
          resolveBodyBytes fs inlineBody responseFile = .ok content) := by
  intro fs inlineBody responseFile
  refine ⟨?_, ?_, ?_⟩ <;> intros <;> simp_all [resolveBodyBytes]

/-! ## Range matching theorems -/

/-- Counterexample for claim C8: `matchRange "50" "\x7b1,100\x7d"` is `true` even
though the range string's first character is neither `'['` nor `'('` — the
bracket characters are not validated, so the claimed necessary condition
("shaped as `'['` or `'('` …") fails at this concrete input. -/
theorem matchRange_bracket_shape_cex :
    matchRange "50" "\x7b1,100\x7d" = true ∧
    ¬ (("\x7b1,100\x7d" : String).data.head? = some '[' ∨
        ("\x7b1,100\x7d" : String).data.head? = some '(') := by
  exact ⟨by decide, by decide⟩

/-- Claim C8, corrected. Range matching returns `true` only when the target
parses as a number, the trimmed range string is at least 5 characters and
splits on `','` into exactly two parseable bounds; the **first character
equal to `'['`** selects `≥` for the lower bound (any other first character,
bracket or not, selects `>`), and the **last character equal to `']'`**
selects `≤` for the upper bound (any other last character selects `<`) — the
bracket characters themselves are never validated. The claim's concrete
examples all hold. -/
theorem matchRange_amended_spec :
    ∀ (t r : String),
      (matchRange t r = true →
        ∃ num minV maxV p1 p2,
          goParseFloat t = some num ∧
          5 ≤ (goTrimSpace r).data.length ∧
          splitOnComma (((goTrimSpace r).data.drop 1).dropLast) = [p1, p2] ∧
          goParseFloat (goTrimSpace ⟨p1⟩) = some minV ∧
          goParseFloat (goTrimSpace ⟨p2⟩) = some maxV ∧
          (if (goTrimSpace r).data.head? = some '[' then Decimal.le minV num
           else Decimal.lt minV num) = true ∧
          (if (goTrimSpace r).data.getLast? = some ']' then Decimal.le num maxV
           else Decimal.lt num maxV) = true) ∧
      matchRange "50" "[1, 100]" = true ∧
      matchRange "0" "[1, 100]" = false ∧
      matchRange "101" "[1, 100]" = false ∧
      matchRange "0" "(0, 100)" = false ∧
      matchRange "100" "[0, 100)" = false := by
  intro t r
  refine ⟨?_, by decide, by decide, by decide, by decide, by decide⟩
  intro h
  unfold matchRange at h
  cases hp : goParseFloat t with
  | none => rw [hp] at h ; cases h
  | some num =>
    rw [hp] at h
    simp only at h
    by_cases hlen : (goTrimSpace r).data.length < 5
    · rw [if_pos hlen] at h ; cases h
    · rw [if_neg hlen] at h
      cases hsplit : splitOnComma (((goTrimSpace r).data.drop 1).dropLast) with
      | nil => rw [hsplit] at h ; cases h
      | cons p1 tl =>
        cases tl with
        | nil => rw [hsplit] at h ; cases h
        | cons p2 tl2 =>
          cases tl2 with
          | cons q tq => rw [hsplit] at h ; cases h
          | nil =>
            rw [hsplit] at h
            simp only at h
            cases hmin : goParseFloat (goTrimSpace ⟨p1⟩) with
            | none => rw [hmin] at h ; cases h
            | some minV =>
              rw [hmin] at h
              cases hmax : goParseFloat (goTrimSpace ⟨p2⟩) with
              | none => rw [hmax] at h ; cases h
              | some maxV =>
                rw [hmax] at h
                simp only [Bool.and_eq_true] at h
                exact ⟨num, minV, maxV, p1, p2, rfl, by omega, rfl,
                  hmin, hmax, h.1, h.2⟩

end MockAPI
